import Mathlib

/-!
Verification of the monky message-bus serialization envelope and topic-identity
model, shallowly embedded from the Rust sources under
crates/monky-utilities/src/kafka/.

Modelling conventions:
- serde_json::Value is embedded as the inductive Json below. JSON numbers are
  modelled as unbounded integers (the envelope claims under study do not
  exercise floating point, which has no faithful shallow embedding).
- serde_json maps (BTreeMap<String, Value>) are embedded as association lists;
  a serde_json map can never hold two entries with the same key, and lookups
  and removals below mirror BTreeMap::get / BTreeMap::remove.
- Byte buffers (&[u8] / Vec<u8>) are embedded as List Nat, each element < 256
  in every reachable state since all produced bytes come from UTF-8 encoding.
- serde_json::to_string / serde_json::from_str are embedded as an executable
  compact printer (exactly the compact shape serde_json emits: no whitespace,
  short escapes plus lowercase \u00XX for control characters) and an executable
  recursive-descent parser. The parser accepts whitespace like serde_json; it
  does not model float literals or surrogate-pair escapes, which the envelope
  under study never produces.
- str::from_utf8 is embedded as an executable strict UTF-8 decoder over
  List Nat (RFC 3629: overlong forms, surrogates and values above 0x10FFFF are
  rejected), paired with the standard UTF-8 encoder.
-/

/-- serde_json::Value, with numbers restricted to integers (see the header
comment). Object members keep their textual order; serde_json object equality
is order-insensitive only between maps, which can never disagree on order for
the trees produced and consumed by the code under study. -/
inductive Json where
  | null : Json
  | bool : Bool → Json
  | num : Int → Json
  | str : String → Json
  | arr : List Json → Json
  | obj : List (String × Json) → Json

/-- Value::is_null. -/
def Json.isNull : Json → Bool
  | .null => true
  | _ => false

/-- BTreeMap::get on the association-list embedding of a serde_json map.
First match; maps built by the parser never hold duplicate keys. -/
def mfind (ms : List (String × Json)) (k : String) : Option Json :=
  match ms with
  | [] => none
  | (k₁, v) :: tl => if k₁ = k then some v else mfind tl k

mutual

/-- remove_nulls from hybrid_object_mapper.rs (lines 164-188): recursively
drop object members and array elements whose cleaned value is Value::Null. -/
def remove_nulls : Json → Json
  | .obj ms => .obj (removeNullsM ms)
  | .arr xs => .arr (removeNullsL xs)
  | other => other

/-- The object branch of remove_nulls: clean each member, keep it only when
the cleaned value is not null. -/
def removeNullsM : List (String × Json) → List (String × Json)
  | [] => []
  | (k, v) :: ms =>
    let cleaned := remove_nulls v
    if cleaned.isNull then removeNullsM ms else (k, cleaned) :: removeNullsM ms

/-- The array branch of remove_nulls: clean each element, keep it only when
the cleaned element is not null. -/
def removeNullsL : List Json → List Json
  | [] => []
  | x :: xs =>
    let cleaned := remove_nulls x
    if cleaned.isNull then removeNullsL xs else cleaned :: removeNullsL xs

end

/-- TypeTagging from hybrid_object_mapper.rs. -/
inductive TypeTagging where
  | none : TypeTagging
  | adjacent : TypeTagging
deriving DecidableEq

/-- HybridObjectMapper from hybrid_object_mapper.rs. The HashSet<String> of
ignored type names is embedded as a list of strings (membership only). -/
structure HybridObjectMapper where
  type_tagging : TypeTagging
  omit_null_values : Bool
  ignore_type_names : List String
deriving DecidableEq

/-- Default::default() for HybridObjectMapper: no tagging, omit nulls, no
ignored type names. -/
def HybridObjectMapper.default : HybridObjectMapper :=
  { type_tagging := .none, omit_null_values := true, ignore_type_names := [] }

/-- HybridObjectMapper::to_json_value, applied after serde_json::to_value:
remove nulls when omit_null_values is set. The argument is the JSON tree of
the serde value. -/
def HybridObjectMapper.to_json_value (m : HybridObjectMapper) (v : Json) : Json :=
  if m.omit_null_values then remove_nulls v else v

/-- HybridObjectMapper::filter_dynamic_value (lines 140-158): on an object,
retain members whose key is not in ignore_type_names and replace each kept
member's value by its remove_nulls cleaning; on anything else apply
remove_nulls only when omit_null_values is set. -/
def HybridObjectMapper.filter_dynamic_value (m : HybridObjectMapper) (v : Json) : Json :=
  match v with
  | .obj ms =>
    .obj (((ms.filter (fun kv => !(m.ignore_type_names.contains kv.1))).map
      (fun kv => (kv.1, remove_nulls kv.2))))
  | other => if m.omit_null_values then remove_nulls other else other

/-! ## The compact JSON printer (serde_json::to_string) -/

/-- The hex digits serde_json uses for \u escapes (lowercase). -/
def hexChar (d : Nat) : Char :=
  if d < 10 then Char.ofNat (48 + d) else Char.ofNat (87 + d)

/-- One decimal digit. -/
def digitChar (d : Nat) : Char := Char.ofNat (48 + d)

/-- Decimal digits of a natural number, most significant first; the fuel
(first argument) only bounds the division depth and n itself is always
enough. -/
def natToCharsAux : Nat → Nat → List Char
  | 0, n => [digitChar n]
  | fuel + 1, n =>
    if n < 10 then [digitChar n]
    else natToCharsAux fuel (n / 10) ++ [digitChar (n % 10)]

/-- Decimal digits of a natural number, most significant first. -/
def natToChars (n : Nat) : List Char := natToCharsAux n n

/-- Decimal rendering of an integer, as serde_json prints i64/u64 values. -/
def intToChars (i : Int) : List Char :=
  if i < 0 then '-' :: natToChars i.natAbs else natToChars i.natAbs

/-- serde_json's escaping of one character inside a JSON string literal:
quote and backslash get two-character escapes, the five named control
characters get their short escapes, the remaining control characters get
lowercase \u00XX, and everything else is emitted verbatim. -/
def escapeChar (c : Char) : List Char :=
  if c = '"' then ['\\', '"']
  else if c = '\\' then ['\\', '\\']
  else if c.toNat = 8 then ['\\', 'b']
  else if c.toNat = 9 then ['\\', 't']
  else if c.toNat = 10 then ['\\', 'n']
  else if c.toNat = 12 then ['\\', 'f']
  else if c.toNat = 13 then ['\\', 'r']
  else if c.toNat < 32 then
    ['\\', 'u', '0', '0', hexChar (c.toNat / 16), hexChar (c.toNat % 16)]
  else [c]

/-- Escape a whole string body. -/
def escList : List Char → List Char
  | [] => []
  | c :: cs => escapeChar c ++ escList cs

/-- A JSON string literal: quote, escaped body, quote. -/
def renderStr (s : List Char) : List Char := '"' :: escList s ++ ['"']

mutual

/-- serde_json::to_string on a Value: the compact form, no whitespace,
members and elements in the order the tree carries them. -/
def renderV : Json → List Char
  | .null => "null".data
  | .bool true => "true".data
  | .bool false => "false".data
  | .num i => intToChars i
  | .str s => renderStr s.data
  | .arr [] => ['[', ']']
  | .arr (x :: xs) => '[' :: renderV x ++ renderL xs ++ [']']
  | .obj [] => ['{', '}']
  | .obj ((k, v) :: ms) => '{' :: renderStr k.data ++ ':' :: renderV v ++ renderM ms ++ ['}']

/-- Trailing array elements, each preceded by a comma. -/
def renderL : List Json → List Char
  | [] => []
  | x :: xs => ',' :: renderV x ++ renderL xs

/-- Trailing object members, each preceded by a comma. -/
def renderM : List (String × Json) → List Char
  | [] => []
  | (k, v) :: ms => ',' :: renderStr k.data ++ ':' :: renderV v ++ renderM ms

end

/-! ## UTF-8 (str::from_utf8 and the encoding of Rust strings) -/

/-- UTF-8 encoding of one unicode scalar value. -/
def utf8EncodeChar (n : Nat) : List Nat :=
  if n < 0x80 then [n]
  else if n < 0x800 then [0xC0 + n / 64, 0x80 + n % 64]
  else if n < 0x10000 then [0xE0 + n / 4096, 0x80 + n / 64 % 64, 0x80 + n % 64]
  else [0xF0 + n / 262144, 0x80 + n / 4096 % 64, 0x80 + n / 64 % 64, 0x80 + n % 64]

/-- UTF-8 encoding of a string (the bytes of a Rust String). -/
def utf8Encode : List Char → List Nat
  | [] => []
  | c :: cs => utf8EncodeChar c.toNat ++ utf8Encode cs

/-- A UTF-8 continuation byte. -/
def isCont (b : Nat) : Bool := 0x80 ≤ b && b < 0xC0

mutual

/-- str::from_utf8: strict UTF-8 decoding. Lead-byte ranges select the
sequence length; continuation-byte and value-range checks (shortest form, no
surrogates, at most 0x10FFFF) live in the per-length helpers below - exactly
the sequences Rust accepts. -/
def utf8Decode : List Nat → Option (List Char)
  | [] => some []
  | b :: rest =>
    if b < 0x80 then
      match utf8Decode rest with
      | some cs => some (Char.ofNat b :: cs)
      | none => none
    else if b < 0xC0 then none
    else if b < 0xE0 then utf8Dec2 b rest
    else if b < 0xF0 then utf8Dec3 b rest
    else if b < 0xF8 then utf8Dec4 b rest
    else none

/-- A two-byte sequence: one continuation byte, value at least 0x80. -/
def utf8Dec2 : Nat → List Nat → Option (List Char)
  | b, b₁ :: rest₁ =>
    if isCont b₁ then
      let n := (b - 0xC0) * 64 + (b₁ - 0x80)
      if 0x80 ≤ n then
        match utf8Decode rest₁ with
        | some cs => some (Char.ofNat n :: cs)
        | none => none
      else none
    else none
  | _, [] => none

/-- A three-byte sequence: two continuation bytes, value at least 0x800 and
not a surrogate. -/
def utf8Dec3 : Nat → List Nat → Option (List Char)
  | b, b₁ :: b₂ :: rest₁ =>
    if isCont b₁ && isCont b₂ then
      let n := (b - 0xE0) * 4096 + (b₁ - 0x80) * 64 + (b₂ - 0x80)
      if 0x800 ≤ n && !(0xD800 ≤ n && n < 0xE000) then
        match utf8Decode rest₁ with
        | some cs => some (Char.ofNat n :: cs)
        | none => none
      else none
    else none
  | _, _ => none

/-- A four-byte sequence: three continuation bytes, value in
[0x10000, 0x10FFFF]. -/
def utf8Dec4 : Nat → List Nat → Option (List Char)
  | b, b₁ :: b₂ :: b₃ :: rest₁ =>
    if isCont b₁ && isCont b₂ && isCont b₃ then
      let n := (b - 0xF0) * 262144 + (b₁ - 0x80) * 4096 + (b₂ - 0x80) * 64 + (b₃ - 0x80)
      if 0x10000 ≤ n && n ≤ 0x10FFFF then
        match utf8Decode rest₁ with
        | some cs => some (Char.ofNat n :: cs)
        | none => none
      else none
    else none
  | _, _ => none

end

/-! ## The JSON parser (serde_json::from_str) -/

/-- The JSON whitespace characters serde_json skips. -/
def isWsChar (c : Char) : Bool := c = ' ' || c = '\t' || c = '\n' || c = '\r'

/-- An ASCII decimal digit. -/
def isDigitChar (c : Char) : Bool := 48 ≤ c.toNat && c.toNat ≤ 57

/-- Skip leading JSON whitespace. -/
def skipWs : List Char → List Char
  | [] => []
  | c :: cs => if isWsChar c then skipWs cs else c :: cs

/-- Value of one hex digit (either case). -/
def hexVal (c : Char) : Option Nat :=
  if 48 ≤ c.toNat && c.toNat ≤ 57 then some (c.toNat - 48)
  else if 97 ≤ c.toNat && c.toNat ≤ 102 then some (c.toNat - 87)
  else if 65 ≤ c.toNat && c.toNat ≤ 70 then some (c.toNat - 55)
  else none

/-- The single-character JSON escapes. -/
def escCode (e : Char) : Option Char :=
  if e = '"' then some '"'
  else if e = '\\' then some '\\'
  else if e = '/' then some '/'
  else if e = 'b' then some (Char.ofNat 8)
  else if e = 't' then some (Char.ofNat 9)
  else if e = 'n' then some (Char.ofNat 10)
  else if e = 'f' then some (Char.ofNat 12)
  else if e = 'r' then some (Char.ofNat 13)
  else none

/-- Longest digit run at the front of the input. -/
def takeDigits : List Char → List Char × List Char
  | [] => ([], [])
  | c :: cs =>
    if isDigitChar c then
      let (ds, rest) := takeDigits cs
      (c :: ds, rest)
    else ([], c :: cs)

/-- Value of a digit run, most significant first. -/
def digitsVal (ds : List Char) : Nat :=
  ds.foldl (fun a c => a * 10 + (c.toNat - 48)) 0

mutual

/-- Body of a JSON string literal, after the opening quote: characters up to
the closing quote, resolving escapes (in the helpers below). Raw control
characters are rejected as JSON requires. -/
def parseStringBody : List Char → Option (List Char × List Char)
  | [] => none
  | c :: cs =>
    if c = '"' then some ([], cs)
    else if c = '\\' then parseEsc cs
    else if c.toNat < 32 then none
    else
      match parseStringBody cs with
      | some (s, rest) => some (c :: s, rest)
      | none => none

/-- The character after a backslash: a \u escape or a single-character
escape. -/
def parseEsc : List Char → Option (List Char × List Char)
  | [] => none
  | e :: cs₁ =>
    if e = 'u' then parseHexEsc cs₁
    else
      match escCode e with
      | some ch =>
        match parseStringBody cs₁ with
        | some (s, rest) => some (ch :: s, rest)
        | none => none
      | none => none

/-- Four hex digits after \u. Unpaired surrogate escapes are rejected
(serde_json additionally resolves surrogate pairs, which the code under
study never produces). -/
def parseHexEsc : List Char → Option (List Char × List Char)
  | h₁ :: h₂ :: h₃ :: h₄ :: cs₂ =>
    match hexVal h₁, hexVal h₂, hexVal h₃, hexVal h₄ with
    | some a, some b, some c₃, some d =>
      let n := ((a * 16 + b) * 16 + c₃) * 16 + d
      if 0xD800 ≤ n && n < 0xE000 then none
      else
        match parseStringBody cs₂ with
        | some (s, rest) => some (Char.ofNat n :: s, rest)
        | none => none
    | _, _, _, _ => none
  | _ => none

end

/-- BTreeMap::insert while an object is being parsed: a later member with the
same key replaces the earlier one, as in serde_json. The earlier member is
dropped when the rest of the object already carries the key. -/
def insertKV (k : String) (v : Json) (ms : List (String × Json)) : List (String × Json) :=
  if ms.any (fun kv => kv.1 = k) then ms else (k, v) :: ms

mutual

/-- One JSON value. The fuel only bounds recursion depth; from_str passes one
more than the input length, which every parse within the input can consume. -/
def parseValue : Nat → List Char → Option (Json × List Char)
  | 0, _ => none
  | fuel + 1, cs =>
    match skipWs cs with
    | [] => none
    | c :: cs₁ =>
      if c = 'n' then
        match cs₁ with
        | 'u' :: 'l' :: 'l' :: rest => some (.null, rest)
        | _ => none
      else if c = 't' then
        match cs₁ with
        | 'r' :: 'u' :: 'e' :: rest => some (.bool true, rest)
        | _ => none
      else if c = 'f' then
        match cs₁ with
        | 'a' :: 'l' :: 's' :: 'e' :: rest => some (.bool false, rest)
        | _ => none
      else if c = '"' then
        match parseStringBody cs₁ with
        | some (s, rest) => some (.str (String.mk s), rest)
        | none => none
      else if c = '[' then
        match skipWs cs₁ with
        | ']' :: rest => some (.arr [], rest)
        | _ =>
          match parseElems fuel cs₁ with
          | some (vs, rest) => some (.arr vs, rest)
          | none => none
      else if c = '{' then
        match skipWs cs₁ with
        | '}' :: rest => some (.obj [], rest)
        | _ =>
          match parseMembers fuel cs₁ with
          | some (ms, rest) => some (.obj ms, rest)
          | none => none
      else if c = '-' then
        match cs₁ with
        | d :: _ =>
          if isDigitChar d then
            let (ds, rest) := takeDigits cs₁
            some (.num (-(digitsVal ds : Int)), rest)
          else none
        | [] => none
      else if isDigitChar c then
        let (ds, rest) := takeDigits (c :: cs₁)
        some (.num (digitsVal ds : Int), rest)
      else none

/-- The elements of a non-empty array, after the opening bracket, consuming
the closing bracket. -/
def parseElems : Nat → List Char → Option (List Json × List Char)
  | 0, _ => none
  | fuel + 1, cs =>
    match parseValue fuel cs with
    | some (v, rest) =>
      match skipWs rest with
      | ',' :: rest₁ =>
        match parseElems fuel rest₁ with
        | some (vs, rest₂) => some (v :: vs, rest₂)
        | none => none
      | ']' :: rest₁ => some ([v], rest₁)
      | _ => none
    | none => none

/-- The members of a non-empty object, after the opening brace, consuming the
closing brace. -/
def parseMembers : Nat → List Char → Option (List (String × Json) × List Char)
  | 0, _ => none
  | fuel + 1, cs =>
    match skipWs cs with
    | '"' :: cs₁ =>
      match parseStringBody cs₁ with
      | some (k, rest) =>
        match skipWs rest with
        | ':' :: rest₁ =>
          match parseValue fuel rest₁ with
          | some (v, rest₂) =>
            match skipWs rest₂ with
            | ',' :: rest₃ =>
              match parseMembers fuel rest₃ with
              | some (ms, rest₄) => some (insertKV (String.mk k) v ms, rest₄)
              | none => none
            | '}' :: rest₃ => some ([(String.mk k, v)], rest₃)
            | _ => none
          | none => none
        | _ => none
      | none => none
    | _ => none

end

/-- serde_json::from_str into a Value: parse one value, then require only
whitespace to remain. -/
def from_str (s : String) : Option Json :=
  match parseValue (s.data.length + 1) s.data with
  | some (v, rest) => if skipWs rest = [] then some v else none
  | none => none

/-! ## The envelope (kafka_serializer.rs / kafka_deserializer.rs) -/

/-- Modelled from the spec: MONKY_MAGIC_BYTE, the single fixed octet agreed by
all ecosystem participants. Its definition site (kafka/core) is not among the
provided sources; only the constant's numeric value is missing, and nothing
proved below depends on it. -/
def MONKY_MAGIC_BYTE : Nat := 0

/-- KafkaSerializer from kafka_serializer.rs: a stateless wrapper around a
HybridObjectMapper. -/
structure KafkaSerializer where
  mapper : HybridObjectMapper

/-- KafkaSerializer::serialize (lines 85-121). The value argument is the JSON
tree serde_json::to_value produced for the serde value; tn stands for
std::any::type_name::<T>(). Three paths as in the source: the fast path
streams the tree directly; Adjacent tagging wraps the filtered tree in
{"@type": tn, "value": payload} (rendered in BTreeMap key order, which puts
"@type" first); the default path streams the filtered tree. The topic
argument is accepted for API parity but unused. -/
def KafkaSerializer.serialize (s : KafkaSerializer) (_topic : String) (tn : String)
    (v : Json) : List Nat :=
  if s.mapper.type_tagging = TypeTagging.none && !s.mapper.omit_null_values then
    MONKY_MAGIC_BYTE :: utf8Encode (renderV v)
  else if s.mapper.type_tagging = TypeTagging.adjacent then
    let payload := s.mapper.to_json_value v
    let wrapped := Json.obj [("@type", Json.str tn), ("value", payload)]
    MONKY_MAGIC_BYTE :: utf8Encode (renderV wrapped)
  else
    MONKY_MAGIC_BYTE :: utf8Encode (renderV (s.mapper.to_json_value v))

/-- HybridObjectMapper::deserialize_with_type (lines 122-136), generic over
the target type: dec stands for serde_json::from_value::<T>. Parse the text;
when the tree is an object whose "@type" member is a string and which has a
"value" member, decode T from the removed "value" member; otherwise decode T
from the whole tree. The mapper's configuration is never consulted (the Rust
method ignores self), and the "@type" string is never inspected beyond being
a string. -/
def HybridObjectMapper.deserialize_with_type {α : Type} (_m : HybridObjectMapper)
    (dec : Json → Option α) (s : String) : Option α :=
  match from_str s with
  | Option.none => Option.none
  | some v =>
    match v with
    | .obj ms =>
      match mfind ms "@type" with
      | some (.str _) =>
        match mfind ms "value" with
        | some val => dec val
        | Option.none => dec (.obj ms)
      | _ => dec (.obj ms)
    | other => dec other

/-- The subtree deserialize_with_type hands to serde_json::from_value, as a
function of the parsed tree alone: the "value" member exactly when the tree
is an object carrying a string "@type" and a "value"; the whole tree in every
other case. -/
def selectPayload (v : Json) : Json :=
  match v with
  | .obj ms =>
    match mfind ms "@type" with
    | some (.str _) =>
      match mfind ms "value" with
      | some val => val
      | Option.none => .obj ms
    | _ => .obj ms
  | other => other

/-- SerializationError from kafka_deserializer.rs (payload carried by the
Utf8Error / serde_json::Error causes is not modelled). -/
inductive SerializationError where
  | payloadTooShort : SerializationError
  | invalidUtf8 : SerializationError
  | json : SerializationError
deriving DecidableEq

/-- KafkaDeserializer from kafka_deserializer.rs. -/
structure KafkaDeserializer where
  mapper : HybridObjectMapper

/-- KafkaDeserializer::deserialize (lines 99-118): fail PayloadTooShort on an
empty buffer, skip the first byte without inspecting it, UTF-8-validate the
remainder, then deserialize_with_type::<Value> (from_value on a Value is the
identity, so dec is some). The topic argument is unused. -/
def KafkaDeserializer.deserialize (d : KafkaDeserializer) (_topic : String)
    (bytes : List Nat) : Except SerializationError Json :=
  match bytes with
  | [] => .error .payloadTooShort
  | _ :: payload =>
    match utf8Decode payload with
    | Option.none => .error .invalidUtf8
    | some chars =>
      match d.mapper.deserialize_with_type some (String.mk chars) with
      | some v => .ok v
      | Option.none => .error .json

/-- The null-elision the spec's normalize applies: remove_nulls exactly when
the encoder mapper omits null values. -/
def normalizeJson (m : HybridObjectMapper) (v : Json) : Json :=
  if m.omit_null_values then remove_nulls v else v

/-- A tree shaped like an adjacent wrapper: a top-level object carrying a
string "@type" member and a "value" member. Exactly the trees
deserialize_with_type unwraps. -/
def isWrapperShaped (v : Json) : Bool :=
  match v with
  | .obj ms =>
    match mfind ms "@type" with
    | some (.str _) =>
      match mfind ms "value" with
      | some _ => true
      | Option.none => false
    | _ => false
  | _ => false

/-! ## Well-formed trees

A serde_json map can never hold two members with the same key, so every tree
serde_json::to_value produces satisfies the following predicate. -/

/-- No later member of the list repeats the key k. The test is written with
the same expression insertKV consults. -/
def keyAbsent (k : String) (ms : List (String × Json)) : Bool :=
  !(ms.any (fun kv => kv.1 = k))

mutual

/-- Every object in the tree has pairwise-distinct keys. -/
def WFV : Json → Bool
  | .null => true
  | .bool _ => true
  | .num _ => true
  | .str _ => true
  | .arr xs => WFL xs
  | .obj ms => WFM ms

/-- WFV on every element. -/
def WFL : List Json → Bool
  | [] => true
  | x :: xs => WFV x && WFL xs

/-- Keys pairwise distinct and WFV on every member value. -/
def WFM : List (String × Json) → Bool
  | [] => true
  | (k, v) :: ms => keyAbsent k ms && WFV v && WFM ms

end

/-! ## Topic identity (topic.rs, app.rs, source.rs, ops.rs, topic_impl.rs) -/

/-- The cached MONKY_CORE_NAMESPACE prefix (topic.rs lines 23-28): the
variable's value followed by "." when set and non-empty, else "". The
environment is modelled as the Option String the process read at first
access. -/
def monky_namespace (env : Option String) : String :=
  match env with
  | some ns => if ns = "" then "" else ns ++ "."
  | Option.none => ""

/-- The Topic trait's default name() (topic.rs lines 47-55):
"{namespace}{kind}.{domain}.{dataset}". -/
def topic_name (env : Option String) (kind domain dataset : String) : String :=
  monky_namespace env ++ kind ++ "." ++ domain ++ "." ++ dataset

/-- DEFAULT_COMPACT_CONFIG from app.rs (lines 24-30), as an association list
(HashMap modelled by its key-value pairs; only lookups are stated). -/
def DEFAULT_COMPACT_CONFIG : List (String × String) :=
  [("cleanup.policy", "compact"),
   ("segment.bytes", "10485760"),
   ("min.compaction.lag.ms", "86400000")]

/-- Lookup in a config map. -/
def cfgGet (cfg : List (String × String)) (k : String) : Option String :=
  match cfg with
  | [] => Option.none
  | (k₁, v) :: tl => if k₁ = k then some v else cfgGet tl k

/-- AppTopic from app.rs: an application-communication topic with a dataset
name and the custom-config opt-out flag. -/
structure AppTopic where
  dataset_name : String
  use_default_config : Bool

/-- AppTopic::new. -/
def AppTopic.new (dataset_name : String) : AppTopic :=
  { dataset_name := dataset_name, use_default_config := true }

/-- AppTopic::with_custom_config. -/
def AppTopic.with_custom_config (dataset_name : String) : AppTopic :=
  { dataset_name := dataset_name, use_default_config := false }

/-- AppTopic::kind, delegated to ApplicationCommunication (topic_impl.rs). -/
def AppTopic.kind (_ : AppTopic) : String := "application"

/-- AppTopic::domain, delegated to ApplicationCommunication (topic_impl.rs). -/
def AppTopic.domain (_ : AppTopic) : String := "communication"

/-- AppTopic::dataset. -/
def AppTopic.dataset (t : AppTopic) : String := t.dataset_name

/-- AppTopic::config (app.rs lines 71-78): the shared compacted-log defaults,
or an empty map when the opt-out was used. -/
def AppTopic.config (t : AppTopic) : List (String × String) :=
  if t.use_default_config then DEFAULT_COMPACT_CONFIG else []

/-- The trait-default name() instantiated at an AppTopic. -/
def AppTopic.name (env : Option String) (t : AppTopic) : String :=
  topic_name env t.kind t.domain t.dataset

/-- SourceTopic from source.rs: kind "source", a domain and a dataset. -/
structure SourceTopic where
  kind : String
  domain : String
  dataset : String

/-- SourceTopic::new. -/
def SourceTopic.new (domain dataset : String) : SourceTopic :=
  { kind := "source", domain := domain, dataset := dataset }

/-- SourceTopic::config (source.rs lines 51-53): always empty. -/
def SourceTopic.config (_ : SourceTopic) : List (String × String) := []

/-- The trait-default name() instantiated at a SourceTopic. -/
def SourceTopic.name (env : Option String) (t : SourceTopic) : String :=
  topic_name env t.kind t.domain t.dataset

/-- OpsTopic from ops.rs: kind "ops", domain "application" via
OpsApplication, and a dataset name. -/
structure OpsTopic where
  dataset_name : String

/-- OpsTopic::new. -/
def OpsTopic.new (dataset_name : String) : OpsTopic :=
  { dataset_name := dataset_name }

/-- OpsTopic::kind via OpsApplication. -/
def OpsTopic.kind (_ : OpsTopic) : String := "ops"

/-- OpsTopic::domain via OpsApplication. -/
def OpsTopic.domain (_ : OpsTopic) : String := "application"

/-- OpsTopic::dataset. -/
def OpsTopic.dataset (t : OpsTopic) : String := t.dataset_name

/-- OpsTopic does not override the Topic trait's default config(), which
returns HashMap::new() (topic.rs lines 43-45). -/
def OpsTopic.config (_ : OpsTopic) : List (String × String) := []

/-- app_messages from app.rs. -/
def app_messages : AppTopic := AppTopic.new "messages"

/-- The member list of an object tree (and [] on any other tree); used to
state member-level facts about filter_dynamic_value. -/
def objMembers : Json → List (String × Json)
  | .obj ms => ms
  | _ => []

/-- A parser remainder that cannot extend a preceding token: empty, or not
starting with a digit. Every remainder the printer produces inside a
document starts with a comma, bracket or brace. -/
def restOk : List Char → Bool
  | [] => true
  | c :: _ => !(isDigitChar c)

mutual

/-- Fuel sufficient to parse a rendered tree; at most the rendered length. -/
def sizeV : Json → Nat
  | .null => 1
  | .bool _ => 1
  | .num _ => 1
  | .str _ => 1
  | .arr xs => 1 + sizeL xs
  | .obj ms => 1 + sizeM ms

/-- Fuel for the elements of an array. -/
def sizeL : List Json → Nat
  | [] => 0
  | x :: xs => 1 + sizeV x + sizeL xs

/-- Fuel for the members of an object. -/
def sizeM : List (String × Json) → Nat
  | [] => 0
  | (_, v) :: ms => 1 + sizeV v + sizeM ms

end

/-! ## Theorems -/

/-- C4: for every mapper configuration, topic and value, the first byte of
KafkaSerializer::serialize's output is MONKY_MAGIC_BYTE, in all three
serialization paths (fast path, Adjacent tagging, default omit-nulls path). -/
theorem serialize_first_byte_is_magic (s : KafkaSerializer) (topic tn : String) (v : Json) :
    (s.serialize topic tn v).head? = some MONKY_MAGIC_BYTE := by
  unfold KafkaSerializer.serialize
  split
  · rfl
  · split <;> rfl

/-- C5: KafkaDeserializer::deserialize never inspects the value of the first
byte: replacing it changes nothing in the result. -/
theorem deserialize_ignores_first_byte (d : KafkaDeserializer) (topic : String)
    (r : List Nat) (b₁ b₂ : Nat) :
    d.deserialize topic (b₁ :: r) = d.deserialize topic (b₂ :: r) := rfl

/-- C10: a one-byte buffer (header with empty body) decodes the empty string,
whose JSON parse fails: the result is the Json error, never PayloadTooShort
and never InvalidUtf8. -/
theorem deserialize_single_byte (d : KafkaDeserializer) (topic : String) (b : Nat) :
    d.deserialize topic [b] = .error .json ∧
    d.deserialize topic [b] ≠ .error .payloadTooShort ∧
    d.deserialize topic [b] ≠ .error .invalidUtf8 := by
  refine ⟨rfl, ?_, ?_⟩ <;>
    · rw [show d.deserialize topic [b] = Except.error SerializationError.json from rfl]
      simp

/-- C3: KafkaDeserializer::deserialize fails PayloadTooShort exactly on the
empty buffer, and on any non-empty buffer whose suffix after the first byte
is not UTF-8 it fails InvalidUtf8 (by the shape of the definition, before any
JSON parsing). -/
theorem deserialize_error_conditions (d : KafkaDeserializer) (topic : String) :
    (∀ bytes, d.deserialize topic bytes = .error .payloadTooShort ↔ bytes = []) ∧
    (∀ b rest, utf8Decode rest = Option.none →
      d.deserialize topic (b :: rest) = .error .invalidUtf8) := by
  constructor
  · intro bytes
    cases bytes with
    | nil => simp [KafkaDeserializer.deserialize]
    | cons b payload =>
      simp only [KafkaDeserializer.deserialize]
      cases hu : utf8Decode payload with
      | none => simp
      | some chars =>
        cases hd : d.mapper.deserialize_with_type some (String.mk chars) <;> simp [hd]
  · intro b rest h
    simp [KafkaDeserializer.deserialize, h]

/-- Witness for C3 at concrete inputs: the empty buffer fails PayloadTooShort
and the buffer [0, 255] fails InvalidUtf8. -/
theorem deserialize_error_conditions_witness :
    (KafkaDeserializer.mk HybridObjectMapper.default).deserialize "t" [] =
      .error .payloadTooShort ∧
    (KafkaDeserializer.mk HybridObjectMapper.default).deserialize "t" [0, 255] =
      .error .invalidUtf8 :=
  ⟨((deserialize_error_conditions _ "t").1 []).mpr rfl,
   (deserialize_error_conditions _ "t").2 0 [255] (by decide)⟩

/-- C7: every application-communication topic built by AppTopic::new carries
the compacted-log configuration (cleanup.policy compact, segment.bytes
10485760, min.compaction.lag.ms 86400000); every topic built with the
custom-config opt-out, every source-events topic and every ops topic has an
empty configuration. -/
theorem topic_config_surface :
    (∀ ds, cfgGet (AppTopic.new ds).config "cleanup.policy" = some "compact" ∧
      cfgGet (AppTopic.new ds).config "segment.bytes" = some "10485760" ∧
      cfgGet (AppTopic.new ds).config "min.compaction.lag.ms" = some "86400000") ∧
    (∀ ds, (AppTopic.with_custom_config ds).config = []) ∧
    (∀ t : SourceTopic, t.config = []) ∧
    (∀ t : OpsTopic, t.config = []) :=
  ⟨fun _ => ⟨rfl, rfl, rfl⟩, fun _ => rfl, fun _ => rfl, fun _ => rfl⟩

/-- C8: the composed topic name is the namespace prefix (empty when the
environment variable is unset or empty, else its value followed by a dot)
followed by kind.domain.dataset; in particular app_messages with no
namespace is named application.communication.messages. -/
theorem topic_name_composition :
    (∀ k d s, topic_name Option.none k d s = k ++ "." ++ d ++ "." ++ s) ∧
    (∀ k d s, topic_name (some "") k d s = k ++ "." ++ d ++ "." ++ s) ∧
    (∀ ns k d s, ns ≠ "" →
      topic_name (some ns) k d s = ns ++ "." ++ k ++ "." ++ d ++ "." ++ s) ∧
    AppTopic.name Option.none app_messages = "application.communication.messages" := by
  refine ⟨fun k d s => rfl, fun k d s => rfl, fun ns k d s h => ?_, rfl⟩
  simp only [topic_name, monky_namespace, if_neg h]

/-- Witness for C8 with a non-empty namespace: the prefixed name of the
messages topic. -/
theorem topic_name_composition_witness :
    topic_name (some "acme") "application" "communication" "messages" =
      "acme.application.communication.messages" := by
  rw [topic_name_composition.2.2.1 "acme" "application" "communication" "messages"
    (by decide)]
  rfl

/-- C2: for every JSON text that parses, deserialize_with_type decodes T from
the subtree selectPayload picks, for every decoder dec (so the "@type" string
is never compared against T); and selectPayload is the "value" member exactly
when the top level is an object with a string "@type" member and a "value"
member, and the whole tree in every other case. -/
theorem deserialize_with_type_selects {α : Type} (m : HybridObjectMapper)
    (dec : Json → Option α) (s : String) (v : Json) (h : from_str s = some v) :
    m.deserialize_with_type dec s = dec (selectPayload v) ∧
    (∀ ms tn val, v = Json.obj ms → mfind ms "@type" = some (Json.str tn) →
      mfind ms "value" = some val → selectPayload v = val) ∧
    (∀ ms, v = Json.obj ms → mfind ms "value" = Option.none → selectPayload v = v) ∧
    (∀ ms, v = Json.obj ms → (∀ tn, mfind ms "@type" ≠ some (Json.str tn)) →
      selectPayload v = v) ∧
    ((∀ ms, v ≠ Json.obj ms) → selectPayload v = v) := by
  refine ⟨?_, ?_, ?_, ?_, ?_⟩
  · unfold HybridObjectMapper.deserialize_with_type selectPayload
    rw [h]
    cases v with
    | obj ms =>
      cases hT : mfind ms "@type" with
      | none => simp [hT]
      | some w =>
        cases w <;> simp [hT]
        cases hV : mfind ms "value" <;> simp [hV]
    | null => rfl
    | bool b => rfl
    | num i => rfl
    | str s => rfl
    | arr xs => rfl
  · rintro ms tn val rfl hT hV
    unfold selectPayload
    simp [hT, hV]
  · rintro ms rfl hV
    unfold selectPayload
    cases hT : mfind ms "@type" with
    | none => simp [hT]
    | some w => cases w <;> simp [hT, hV]
  · rintro ms rfl hT
    unfold selectPayload
    cases hT₁ : mfind ms "@type" with
    | none => simp [hT₁]
    | some w =>
      cases w <;> simp [hT₁]
      exact absurd hT₁ (hT _)
  · intro hno
    cases v with
    | obj ms => exact absurd rfl (hno ms)
    | null => rfl
    | bool b => rfl
    | num i => rfl
    | str s => rfl
    | arr xs => rfl

/-- Witness for C2: a wrapped text decodes its "value" member. -/
theorem deserialize_with_type_selects_witness :
    HybridObjectMapper.default.deserialize_with_type some
      "\x7b\"@type\":\"X\",\"value\":3\x7d" = some (Json.num 3) := by
  have h := deserialize_with_type_selects (α := Json) HybridObjectMapper.default some
    "\x7b\"@type\":\"X\",\"value\":3\x7d"
    (Json.obj [("@type", Json.str "X"), ("value", Json.num 3)]) rfl
  rw [h.1, h.2.1 _ "X" (Json.num 3) rfl rfl rfl]

/-- C6 counterexample: with the default mapper, an object member whose value
is JSON-null is NOT removed by filter_dynamic_value (remove_nulls is applied
to the member's value, and cleaning null gives null), contradicting the
claim's "members whose value is JSON-null are removed". -/
theorem filter_dynamic_value_keeps_null_member :
    HybridObjectMapper.default.filter_dynamic_value (Json.obj [("key", Json.null)]) =
      Json.obj [("key", Json.null)] ∧
    Json.obj [("key", Json.null)] ≠ Json.obj [] := by
  refine ⟨rfl, ?_⟩
  intro h
  injection h with h₁
  simp at h₁

/-- Boolean membership agrees with propositional membership. -/
theorem contains_eq_decide_mem (l : List String) (a : String) :
    l.contains a = decide (a ∈ l) := by simp

/-- mfind after the ignore-filter and member-wise cleaning of
filter_dynamic_value: none for ignored keys, the cleaned original lookup
otherwise. -/
theorem mfind_filter_clean (ign : List String) (ms : List (String × Json)) (k : String) :
    mfind ((ms.filter (fun kv => !(ign.contains kv.1))).map
        (fun kv => (kv.1, remove_nulls kv.2))) k =
      if k ∈ ign then Option.none else (mfind ms k).map remove_nulls := by
  simp only [contains_eq_decide_mem]
  induction ms with
  | nil => by_cases h : k ∈ ign <;> simp [mfind, h]
  | cons kv tl ih =>
    obtain ⟨k₁, v₁⟩ := kv
    by_cases hk : k₁ = k
    · subst hk
      by_cases h : k₁ ∈ ign <;>
        simp [List.filter_cons, h, mfind, ih]
    · by_cases h : k₁ ∈ ign <;>
        simp [List.filter_cons, h, mfind, hk, ih]

/-- C6 amended: on an object, filter_dynamic_value drops members whose key is
in the ignored-type-name set and replaces each remaining member's value by
its recursive null-elision, so a member whose own value is JSON-null is kept
as null (nested nulls inside it are removed); on an array or scalar it
applies null-elision exactly when the mapper's omit-nulls flag is set. -/
theorem filter_dynamic_value_spec (m : HybridObjectMapper) :
    (∀ ms k, m.ignore_type_names.contains k = true →
      mfind (objMembers (m.filter_dynamic_value (Json.obj ms))) k = Option.none) ∧
    (∀ ms k, m.ignore_type_names.contains k = false →
      mfind (objMembers (m.filter_dynamic_value (Json.obj ms))) k =
        (mfind ms k).map remove_nulls) ∧
    (∀ ms k, m.ignore_type_names.contains k = false → mfind ms k = some Json.null →
      mfind (objMembers (m.filter_dynamic_value (Json.obj ms))) k = some Json.null) ∧
    (∀ v, (∀ ms, v ≠ Json.obj ms) →
      m.filter_dynamic_value v = if m.omit_null_values then remove_nulls v else v) := by
  refine ⟨?_, ?_, ?_, ?_⟩
  · intro ms k h
    show mfind ((ms.filter _).map _) k = Option.none
    rw [mfind_filter_clean, if_pos (by simpa using h)]
  · intro ms k h
    show mfind ((ms.filter _).map _) k = _
    rw [mfind_filter_clean, if_neg (by simpa using h)]
  · intro ms k h hv
    show mfind ((ms.filter _).map _) k = _
    rw [mfind_filter_clean, if_neg (by simpa using h), hv]
    rfl
  · intro v hno
    cases v with
    | obj ms => exact absurd rfl (hno ms)
    | null => rfl
    | bool b => rfl
    | num i => rfl
    | str s => rfl
    | arr xs => rfl

/-- Witness for C6-amended at concrete inputs: the ignored key vanishes, a
null-valued member under a non-ignored key survives as null, and a scalar
passes through (the default-style mapper cleans it, identity on a number). -/
theorem filter_dynamic_value_spec_witness :
    mfind (objMembers ((HybridObjectMapper.mk .none true ["ig"]).filter_dynamic_value
      (Json.obj [("ig", Json.num 1), ("keep", Json.null)]))) "ig" = Option.none ∧
    mfind (objMembers ((HybridObjectMapper.mk .none true ["ig"]).filter_dynamic_value
      (Json.obj [("ig", Json.num 1), ("keep", Json.null)]))) "keep" = some Json.null ∧
    (HybridObjectMapper.mk .none true ["ig"]).filter_dynamic_value (Json.num 5) =
      Json.num 5 := by
  refine ⟨(filter_dynamic_value_spec _).1 _ "ig" rfl,
    (filter_dynamic_value_spec _).2.2.1 _ "keep" rfl rfl, ?_⟩
  rw [(filter_dynamic_value_spec _).2.2.2 (Json.num 5) (fun ms h => Json.noConfusion h)]
  rfl

/-- C9 counterexample: name composition is not injective over all non-empty
ASCII components, since a dot inside a component shifts the boundaries: the
distinct triples ("a.b","c","d") and ("a","b.c","d") compose to the same
name. -/
theorem topic_name_collision :
    topic_name Option.none "a.b" "c" "d" = topic_name Option.none "a" "b.c" "d" ∧
    "a.b" ≠ "" ∧ "c" ≠ "" ∧ "d" ≠ "" ∧ "a" ≠ "" ∧ "b.c" ≠ "" ∧
    "a.b".data.all (fun c => c.toNat < 128) = true ∧
    "b.c".data.all (fun c => c.toNat < 128) = true ∧
    "c".data.all (fun c => c.toNat < 128) = true ∧
    "d".data.all (fun c => c.toNat < 128) = true ∧
    "a".data.all (fun c => c.toNat < 128) = true ∧
    ("a.b", "c", "d") ≠ ("a", "b.c", "d") := by decide

/-- Splitting at a separator absent from both prefixes is unambiguous. -/
theorem append_dot_inj : ∀ (a₁ : List Char) {a₂ b₁ b₂ : List Char}, '.' ∉ a₁ → '.' ∉ a₂ →
    a₁ ++ '.' :: b₁ = a₂ ++ '.' :: b₂ → a₁ = a₂ ∧ b₁ = b₂ := by
  intro a₁
  induction a₁ with
  | nil =>
    intro a₂ b₁ b₂ h₁ h₂ h
    cases a₂ with
    | nil => simpa using h
    | cons c t =>
      simp only [List.nil_append, List.cons_append, List.cons.injEq] at h
      rw [← h.1] at h₂
      simp at h₂
  | cons c t ih =>
    intro a₂ b₁ b₂ h₁ h₂ h
    cases a₂ with
    | nil =>
      simp only [List.nil_append, List.cons_append, List.cons.injEq] at h
      rw [h.1] at h₁
      simp at h₁
    | cons c₂ t₂ =>
      simp only [List.cons_append, List.cons.injEq] at h
      obtain ⟨hc, hrest⟩ := h
      have h₁' : '.' ∉ t := fun hm => h₁ (List.mem_cons_of_mem _ hm)
      have h₂' : '.' ∉ t₂ := fun hm => h₂ (List.mem_cons_of_mem _ hm)
      obtain ⟨ht, hb⟩ := ih h₁' h₂' hrest
      exact ⟨by rw [hc, ht], hb⟩

/-- C9 amended: given a fixed environment, name composition is deterministic
(it depends only on the kind/domain/dataset triple), and distinct triples of
non-empty ASCII strings compose to distinct names provided the components
contain no dot (the separator), which every catalog component satisfies. -/
theorem topic_name_purity :
    (∀ env k₁ d₁ s₁ k₂ d₂ s₂, k₁ = k₂ → d₁ = d₂ → s₁ = s₂ →
      topic_name env k₁ d₁ s₁ = topic_name env k₂ d₂ s₂) ∧
    (∀ env k₁ d₁ s₁ k₂ d₂ s₂,
      k₁ ≠ "" → d₁ ≠ "" → s₁ ≠ "" → k₂ ≠ "" → d₂ ≠ "" → s₂ ≠ "" →
      '.' ∉ k₁.data → '.' ∉ d₁.data → '.' ∉ s₁.data →
      '.' ∉ k₂.data → '.' ∉ d₂.data → '.' ∉ s₂.data →
      (k₁, d₁, s₁) ≠ (k₂, d₂, s₂) →
      topic_name env k₁ d₁ s₁ ≠ topic_name env k₂ d₂ s₂) := by
  constructor
  · rintro env k₁ d₁ s₁ k₂ d₂ s₂ rfl rfl rfl
    rfl
  · intro env k₁ d₁ s₁ k₂ d₂ s₂ _ _ _ _ _ _ nk₁ nd₁ _ nk₂ nd₂ _ hne h
    apply hne
    have hdata : (topic_name env k₁ d₁ s₁).data = (topic_name env k₂ d₂ s₂).data := by
      rw [h]
    unfold topic_name at hdata
    simp only [String.data_append, show (".".data) = ['.'] from rfl,
      List.append_assoc, List.singleton_append] at hdata
    have h₁ := List.append_cancel_left hdata
    obtain ⟨hk, hrest⟩ := append_dot_inj _ nk₁ nk₂ h₁
    obtain ⟨hd, hs⟩ := append_dot_inj _ nd₁ nd₂ hrest
    rw [show k₁ = k₂ from congrArg String.mk hk,
      show d₁ = d₂ from congrArg String.mk hd,
      show s₁ = s₂ from congrArg String.mk hs]

/-- Witness for C9-amended: determinism at the messages topic and
distinctness of two concrete catalog names. -/
theorem topic_name_purity_witness :
    topic_name Option.none "application" "communication" "messages" =
      topic_name Option.none "application" "communication" "messages" ∧
    topic_name Option.none "application" "communication" "messages" ≠
      topic_name Option.none "source" "facebook" "events" :=
  ⟨topic_name_purity.1 Option.none "application" "communication" "messages"
      "application" "communication" "messages" rfl rfl rfl,
   topic_name_purity.2 Option.none "application" "communication" "messages"
      "source" "facebook" "events" (by decide) (by decide) (by decide) (by decide)
      (by decide) (by decide) (by decide) (by decide) (by decide) (by decide)
      (by decide) (by decide) (by decide)⟩

/-- Every Char carries a unicode scalar value: below the surrogate block or
above it and at most 0x10FFFF. -/
theorem char_valid_nat (c : Char) :
    c.toNat < 0xD800 ∨ (0xE000 ≤ c.toNat ∧ c.toNat < 0x110000) := by
  have h := c.valid
  simp only [UInt32.isValidChar, Nat.isValidChar] at h
  simp only [Char.toNat]
  omega

/-- Decoding one encoded scalar value at the front of a byte stream yields
the character and continues with the rest. -/
theorem utf8Decode_encodeChar (c : Char) (t : List Nat) :
    utf8Decode (utf8EncodeChar c.toNat ++ t) =
      (utf8Decode t).map (fun cs => c :: cs) := by
  have hval := char_valid_nat c
  have hofnat : Char.ofNat c.toNat = c := Char.ofNat_toNat c
  by_cases h₁ : c.toNat < 0x80
  · rw [show utf8EncodeChar c.toNat = [c.toNat] by rw [utf8EncodeChar, if_pos h₁]]
    show utf8Decode (c.toNat :: t) = _
    rw [utf8Decode, if_pos h₁]
    cases utf8Decode t with
    | none => rfl
    | some cs => rw [hofnat]; rfl
  · by_cases h₂ : c.toNat < 0x800
    · rw [show utf8EncodeChar c.toNat =
        [0xC0 + c.toNat / 64, 0x80 + c.toNat % 64] by
          rw [utf8EncodeChar, if_neg h₁, if_pos h₂]]
      show utf8Decode ((0xC0 + c.toNat / 64) :: (0x80 + c.toNat % 64) :: t) = _
      rw [utf8Decode, if_neg (by omega), if_neg (by omega), if_pos (by omega)]
      rw [utf8Dec2, if_pos (show isCont (0x80 + c.toNat % 64) = true by
        simp [isCont]; omega)]
      simp only
      rw [show (0xC0 + c.toNat / 64 - 0xC0) * 64 + (0x80 + c.toNat % 64 - 0x80) =
        c.toNat by omega]
      rw [if_pos (show 0x80 ≤ c.toNat by omega)]
      cases utf8Decode t with
      | none => rfl
      | some cs => rw [hofnat]; rfl
    · by_cases h₃ : c.toNat < 0x10000
      · rw [show utf8EncodeChar c.toNat =
          [0xE0 + c.toNat / 4096, 0x80 + c.toNat / 64 % 64, 0x80 + c.toNat % 64] by
            rw [utf8EncodeChar, if_neg h₁, if_neg h₂, if_pos h₃]]
        show utf8Decode ((0xE0 + c.toNat / 4096) :: (0x80 + c.toNat / 64 % 64) ::
          (0x80 + c.toNat % 64) :: t) = _
        rw [utf8Decode, if_neg (by omega), if_neg (by omega), if_neg (by omega),
          if_pos (by omega)]
        rw [utf8Dec3, if_pos (show (isCont (0x80 + c.toNat / 64 % 64) &&
          isCont (0x80 + c.toNat % 64)) = true by simp [isCont]; omega)]
        simp only
        rw [show (0xE0 + c.toNat / 4096 - 0xE0) * 4096 +
          (0x80 + c.toNat / 64 % 64 - 0x80) * 64 + (0x80 + c.toNat % 64 - 0x80) =
          c.toNat by omega]
        rw [if_pos (show (0x800 ≤ c.toNat &&
          !(0xD800 ≤ c.toNat && c.toNat < 0xE000)) = true by simp; omega)]
        cases utf8Decode t with
        | none => rfl
        | some cs => rw [hofnat]; rfl
      · rw [show utf8EncodeChar c.toNat =
          [0xF0 + c.toNat / 262144, 0x80 + c.toNat / 4096 % 64,
           0x80 + c.toNat / 64 % 64, 0x80 + c.toNat % 64] by
            rw [utf8EncodeChar, if_neg h₁, if_neg h₂, if_neg h₃]]
        show utf8Decode ((0xF0 + c.toNat / 262144) :: (0x80 + c.toNat / 4096 % 64) ::
          (0x80 + c.toNat / 64 % 64) :: (0x80 + c.toNat % 64) :: t) = _
        rw [utf8Decode, if_neg (by omega), if_neg (by omega), if_neg (by omega),
          if_neg (by omega), if_pos (by omega)]
        rw [utf8Dec4, if_pos (show (isCont (0x80 + c.toNat / 4096 % 64) &&
          isCont (0x80 + c.toNat / 64 % 64) && isCont (0x80 + c.toNat % 64)) = true by
            simp [isCont]; omega)]
        simp only
        rw [show (0xF0 + c.toNat / 262144 - 0xF0) * 262144 +
          (0x80 + c.toNat / 4096 % 64 - 0x80) * 4096 +
          (0x80 + c.toNat / 64 % 64 - 0x80) * 64 + (0x80 + c.toNat % 64 - 0x80) =
          c.toNat by omega]
        rw [if_pos (show (0x10000 ≤ c.toNat && c.toNat ≤ 0x10FFFF) = true by
          simp only [Bool.and_eq_true, decide_eq_true_eq]
          omega)]
        cases utf8Decode t with
        | none => rfl
        | some cs => rw [hofnat]; rfl

/-- The UTF-8 encoder and the strict decoder round-trip on every string. -/
theorem utf8Decode_utf8Encode (s : List Char) : utf8Decode (utf8Encode s) = some s := by
  induction s with
  | nil => rfl
  | cons c cs ih =>
    rw [show utf8Encode (c :: cs) = utf8EncodeChar c.toNat ++ utf8Encode cs from rfl,
      utf8Decode_encodeChar, ih]
    rfl

/-- Char.ofNat of a valid scalar value has that value. -/
theorem toNat_ofNat_valid (n : Nat) (h : n.isValidChar) : (Char.ofNat n).toNat = n := by
  simp [Char.ofNat, h]
  rfl

/-- The value of a decimal digit character. -/
theorem toNat_digitChar (d : Nat) (h : d < 10) : (digitChar d).toNat = 48 + d :=
  toNat_ofNat_valid _ (Or.inl (by omega))

/-- Decimal digit characters satisfy the parser's digit test. -/
theorem isDigitChar_digitChar (d : Nat) (h : d < 10) : isDigitChar (digitChar d) = true := by
  simp only [isDigitChar, toNat_digitChar d h, Bool.and_eq_true, decide_eq_true_eq]
  omega

/-- Digit runs evaluate most-significant-first. -/
theorem digitsVal_append_digit (a : List Char) (c : Char) :
    digitsVal (a ++ [c]) = digitsVal a * 10 + (c.toNat - 48) := by
  simp [digitsVal, List.foldl_append]

/-- With enough fuel (n itself is enough), natToCharsAux produces a non-empty
all-digit list whose value is n. -/
theorem natToCharsAux_spec : ∀ (fuel n : Nat), n ≤ fuel →
    (∀ c ∈ natToCharsAux fuel n, isDigitChar c = true) ∧
    digitsVal (natToCharsAux fuel n) = n ∧
    natToCharsAux fuel n ≠ [] := by
  intro fuel
  induction fuel with
  | zero =>
    intro n hn
    have hz : n = 0 := by omega
    subst hz
    refine ⟨?_, by decide, by decide⟩
    intro c hc
    rw [show natToCharsAux 0 0 = [digitChar 0] from rfl] at hc
    simp at hc
    subst hc
    exact isDigitChar_digitChar 0 (by omega)
  | succ f ih =>
    intro n hn
    rw [natToCharsAux]
    by_cases h10 : n < 10
    · rw [if_pos h10]
      refine ⟨?_, ?_, by simp⟩
      · intro c hc
        simp at hc
        subst hc
        exact isDigitChar_digitChar n h10
      · rw [show [digitChar n] = [] ++ [digitChar n] from rfl, digitsVal_append_digit,
          toNat_digitChar n h10]
        simp [digitsVal]
    · rw [if_neg h10]
      obtain ⟨hd, hv, hne⟩ := ih (n / 10) (by omega)
      refine ⟨?_, ?_, by simp⟩
      · intro c hc
        rcases List.mem_append.mp hc with h | h
        · exact hd c h
        · simp at h
          subst h
          exact isDigitChar_digitChar _ (by omega)
      · rw [digitsVal_append_digit, hv, toNat_digitChar _ (by omega)]
        omega

/-- natToChars: non-empty, all digits, value n. -/
theorem natToChars_spec (n : Nat) :
    (∀ c ∈ natToChars n, isDigitChar c = true) ∧
    digitsVal (natToChars n) = n ∧ natToChars n ≠ [] :=
  natToCharsAux_spec n n le_rfl

/-- A digit character is in the ASCII digit range. -/
theorem isDigitChar_bounds (c : Char) (h : isDigitChar c = true) :
    48 ≤ c.toNat ∧ c.toNat ≤ 57 := by
  simpa [isDigitChar, Bool.and_eq_true, decide_eq_true_eq] using h

/-- A digit character is none of the characters the value parser treats
specially. -/
theorem digit_not_special (c : Char) (h : isDigitChar c = true) :
    isWsChar c = false ∧ c ≠ 'n' ∧ c ≠ 't' ∧ c ≠ 'f' ∧ c ≠ '"' ∧ c ≠ '[' ∧
    c ≠ '{' ∧ c ≠ '-' ∧ c ≠ ']' := by
  obtain ⟨h₁, h₂⟩ := isDigitChar_bounds c h
  refine ⟨?_, ?_, ?_, ?_, ?_, ?_, ?_, ?_, ?_⟩
  · cases hw : isWsChar c
    · rfl
    · exfalso
      simp [isWsChar] at hw
      rcases hw with (((rfl | rfl) | rfl) | rfl) <;> exact absurd h₁ (by decide)
  all_goals (rintro rfl; first | exact absurd h₁ (by decide) | exact absurd h₂ (by decide))

/-- Whitespace skipping stops at a non-whitespace character. -/
theorem skipWs_cons_not_ws (c : Char) (t : List Char) (h : isWsChar c = false) :
    skipWs (c :: t) = c :: t := by
  simp [skipWs, h]

/-- takeDigits splits an all-digit run from a remainder that does not start
with a digit. -/
theorem takeDigits_append (ds rest : List Char) (hds : ∀ c ∈ ds, isDigitChar c = true)
    (hrest : restOk rest = true) : takeDigits (ds ++ rest) = (ds, rest) := by
  induction ds with
  | nil =>
    cases rest with
    | nil => rfl
    | cons c t =>
      have hc : isDigitChar c = false := by
        simp only [restOk, Bool.not_eq_true'] at hrest
        exact hrest
      simp [takeDigits, hc]
  | cons d ds ih =>
    have hd : isDigitChar d = true := hds d (List.mem_cons_self _ _)
    simp [takeDigits, hd, ih (fun c hc => hds c (List.mem_cons_of_mem _ hc))]

/-- The tail after the leading comma of a rendered element list, closed by a
bracket, never starts with a digit. -/
theorem restOk_renderL_close (xs : List Json) (rest : List Char) :
    restOk (renderL xs ++ ']' :: rest) = true := by
  cases xs with
  | nil => rfl
  | cons x tl => rfl

/-- The tail after the leading comma of a rendered member list, closed by a
brace, never starts with a digit. -/
theorem restOk_renderM_close (ms : List (String × Json)) (rest : List Char) :
    restOk (renderM ms ++ '}' :: rest) = true := by
  cases ms with
  | nil => rfl
  | cons kv tl =>
    obtain ⟨k, v⟩ := kv
    rfl

/-- hexChar and hexVal are inverse on one hex digit. -/
theorem hexVal_hexChar (d : Nat) (h : d < 16) : hexVal (hexChar d) = some d := by
  interval_cases d <;> rfl

/-- The printer's escaping and the parser's unescaping round-trip on every
string body. -/
theorem parseStringBody_escList (s rest : List Char) :
    parseStringBody (escList s ++ '"' :: rest) = some (s, rest) := by
  induction s with
  | nil => rfl
  | cons c cs ih =>
    show parseStringBody ((escapeChar c ++ escList cs) ++ '"' :: rest) = _
    rw [List.append_assoc]
    have hofnat : Char.ofNat c.toNat = c := Char.ofNat_toNat c
    by_cases h₁ : c = '"'
    · subst h₁
      rw [show escapeChar '"' = ['\\', '"'] from rfl]
      rw [show parseStringBody (['\\', '"'] ++ (escList cs ++ '"' :: rest)) =
        (match parseStringBody (escList cs ++ '"' :: rest) with
         | some (s, r) => some ('"' :: s, r)
         | none => none) from rfl, ih]
    · by_cases h₂ : c = '\\'
      · subst h₂
        rw [show escapeChar '\\' = ['\\', '\\'] from rfl]
        rw [show parseStringBody (['\\', '\\'] ++ (escList cs ++ '"' :: rest)) =
          (match parseStringBody (escList cs ++ '"' :: rest) with
           | some (s, r) => some ('\\' :: s, r)
           | none => none) from rfl, ih]
      · by_cases h₃ : c.toNat = 8
        · have hc : Char.ofNat 8 = c := by rw [← h₃]; exact hofnat
          rw [show escapeChar c = ['\\', 'b'] by
            rw [escapeChar, if_neg h₁, if_neg h₂, if_pos h₃]]
          rw [show parseStringBody (['\\', 'b'] ++ (escList cs ++ '"' :: rest)) =
            (match parseStringBody (escList cs ++ '"' :: rest) with
             | some (s, r) => some (Char.ofNat 8 :: s, r)
             | none => none) from rfl, ih, hc]
        · by_cases h₄ : c.toNat = 9
          · have hc : Char.ofNat 9 = c := by rw [← h₄]; exact hofnat
            rw [show escapeChar c = ['\\', 't'] by
              rw [escapeChar, if_neg h₁, if_neg h₂, if_neg h₃, if_pos h₄]]
            rw [show parseStringBody (['\\', 't'] ++ (escList cs ++ '"' :: rest)) =
              (match parseStringBody (escList cs ++ '"' :: rest) with
               | some (s, r) => some (Char.ofNat 9 :: s, r)
               | none => none) from rfl, ih, hc]
          · by_cases h₅ : c.toNat = 10
            · have hc : Char.ofNat 10 = c := by rw [← h₅]; exact hofnat
              rw [show escapeChar c = ['\\', 'n'] by
                rw [escapeChar, if_neg h₁, if_neg h₂, if_neg h₃, if_neg h₄, if_pos h₅]]
              rw [show parseStringBody (['\\', 'n'] ++ (escList cs ++ '"' :: rest)) =
                (match parseStringBody (escList cs ++ '"' :: rest) with
                 | some (s, r) => some (Char.ofNat 10 :: s, r)
                 | none => none) from rfl, ih, hc]
            · by_cases h₆ : c.toNat = 12
              · have hc : Char.ofNat 12 = c := by rw [← h₆]; exact hofnat
                rw [show escapeChar c = ['\\', 'f'] by
                  rw [escapeChar, if_neg h₁, if_neg h₂, if_neg h₃, if_neg h₄,
                    if_neg h₅, if_pos h₆]]
                rw [show parseStringBody (['\\', 'f'] ++ (escList cs ++ '"' :: rest)) =
                  (match parseStringBody (escList cs ++ '"' :: rest) with
                   | some (s, r) => some (Char.ofNat 12 :: s, r)
                   | none => none) from rfl, ih, hc]
              · by_cases h₇ : c.toNat = 13
                · have hc : Char.ofNat 13 = c := by rw [← h₇]; exact hofnat
                  rw [show escapeChar c = ['\\', 'r'] by
                    rw [escapeChar, if_neg h₁, if_neg h₂, if_neg h₃, if_neg h₄,
                      if_neg h₅, if_neg h₆, if_pos h₇]]
                  rw [show parseStringBody (['\\', 'r'] ++ (escList cs ++ '"' :: rest)) =
                    (match parseStringBody (escList cs ++ '"' :: rest) with
                     | some (s, r) => some (Char.ofNat 13 :: s, r)
                     | none => none) from rfl, ih, hc]
                · by_cases h₈ : c.toNat < 32
                  · rw [show escapeChar c = ['\\', 'u', '0', '0',
                      hexChar (c.toNat / 16), hexChar (c.toNat % 16)] by
                        rw [escapeChar, if_neg h₁, if_neg h₂, if_neg h₃, if_neg h₄,
                          if_neg h₅, if_neg h₆, if_neg h₇, if_pos h₈]]
                    rw [show (['\\', 'u', '0', '0', hexChar (c.toNat / 16),
                      hexChar (c.toNat % 16)] ++ (escList cs ++ '"' :: rest)) =
                      '\\' :: 'u' :: '0' :: '0' :: hexChar (c.toNat / 16) ::
                      hexChar (c.toNat % 16) :: (escList cs ++ '"' :: rest) from rfl]
                    rw [show parseStringBody ('\\' :: 'u' :: '0' :: '0' ::
                      hexChar (c.toNat / 16) :: hexChar (c.toNat % 16) ::
                      (escList cs ++ '"' :: rest)) =
                      parseHexEsc ('0' :: '0' :: hexChar (c.toNat / 16) ::
                      hexChar (c.toNat % 16) :: (escList cs ++ '"' :: rest)) from rfl]
                    rw [parseHexEsc, hexVal_hexChar _ (by omega),
                      hexVal_hexChar _ (by omega)]
                    rw [show hexVal '0' = some 0 from rfl]
                    simp only
                    rw [show ((0 * 16 + 0) * 16 + c.toNat / 16) * 16 + c.toNat % 16 =
                      c.toNat by omega]
                    rw [if_neg (by simp; omega)]
                    rw [ih, hofnat]
                  · rw [show escapeChar c = [c] by
                      rw [escapeChar, if_neg h₁, if_neg h₂, if_neg h₃, if_neg h₄,
                        if_neg h₅, if_neg h₆, if_neg h₇, if_neg h₈]]
                    rw [show ([c] ++ (escList cs ++ '"' :: rest)) =
                      c :: (escList cs ++ '"' :: rest) from rfl]
                    rw [parseStringBody, if_neg h₁, if_neg h₂, if_neg h₈, ih]

/-- Every tree needs at least one unit of fuel. -/
theorem sizeV_pos (v : Json) : 1 ≤ sizeV v := by
  cases v <;> simp [sizeV]

/-- The first character of a rendered tree: never whitespace and never a
closing bracket, so the array-element lookahead in parseValue cannot
mistake an element for the end of the array. -/
theorem renderV_head (v : Json) :
    ∃ c t, renderV v = c :: t ∧ isWsChar c = false ∧ c ≠ ']' := by
  cases v with
  | null => exact ⟨'n', _, rfl, rfl, by decide⟩
  | bool b =>
    cases b with
    | true => exact ⟨'t', _, rfl, rfl, by decide⟩
    | false => exact ⟨'f', _, rfl, rfl, by decide⟩
  | num i =>
    rw [show renderV (Json.num i) = intToChars i from rfl, intToChars]
    by_cases hi : i < 0
    · rw [if_pos hi]
      exact ⟨'-', _, rfl, rfl, by decide⟩
    · rw [if_neg hi]
      obtain ⟨hd, -, hne⟩ := natToChars_spec i.natAbs
      obtain ⟨c, t, hct⟩ := List.exists_cons_of_ne_nil hne
      rw [hct]
      have hdig : isDigitChar c = true := hd c (by rw [hct]; exact List.mem_cons_self c t)
      obtain ⟨hws, -, -, -, -, -, -, -, hrb⟩ := digit_not_special c hdig
      exact ⟨c, t, rfl, hws, hrb⟩
  | str s => exact ⟨'"', escList s.data ++ ['"'], rfl, rfl, by decide⟩
  | arr xs =>
    cases xs with
    | nil => exact ⟨'[', [']'], rfl, rfl, by decide⟩
    | cons x tl => exact ⟨'[', _, rfl, rfl, by decide⟩
  | obj ms =>
    cases ms with
    | nil => exact ⟨'{', ['}'], rfl, rfl, by decide⟩
    | cons kv tl =>
      obtain ⟨k, v⟩ := kv
      exact ⟨'{', _, rfl, rfl, by decide⟩

mutual

/-- The fuel a rendered tree needs is at most its printed length. -/
theorem sizeV_le_render (v : Json) : sizeV v ≤ (renderV v).length := by
  cases v with
  | null => decide
  | bool b => cases b <;> decide
  | num i =>
    rw [show renderV (Json.num i) = intToChars i from rfl, intToChars]
    have := (natToChars_spec i.natAbs).2.2
    by_cases hi : i < 0
    · rw [if_pos hi]
      simp [sizeV]
    · rw [if_neg hi]
      cases hc : natToChars i.natAbs with
      | nil => exact absurd hc this
      | cons c t => simp [sizeV]
  | str s => simp [sizeV, renderV, renderStr]
  | arr xs =>
    cases xs with
    | nil => decide
    | cons x tl =>
      have h₁ := sizeV_le_render x
      have h₂ := sizeL_le_render tl
      simp only [sizeV, sizeL, renderV, List.length_cons, List.length_append]
      omega
  | obj ms =>
    cases ms with
    | nil => decide
    | cons kv tl =>
      obtain ⟨k, v⟩ := kv
      have h₁ := sizeV_le_render v
      have h₂ := sizeM_le_render tl
      simp only [sizeV, sizeM, renderV, List.length_cons, List.length_append]
      omega

/-- Element-list fuel is at most the printed length of the tail. -/
theorem sizeL_le_render (xs : List Json) : sizeL xs ≤ (renderL xs).length := by
  cases xs with
  | nil => decide
  | cons x tl =>
    have h₁ := sizeV_le_render x
    have h₂ := sizeL_le_render tl
    simp only [sizeL, renderL, List.length_cons, List.length_append]
    omega

/-- Member-list fuel is at most the printed length of the tail. -/
theorem sizeM_le_render (ms : List (String × Json)) : sizeM ms ≤ (renderM ms).length := by
  cases ms with
  | nil => decide
  | cons kv tl =>
    obtain ⟨k, v⟩ := kv
    have h₁ := sizeV_le_render v
    have h₂ := sizeM_le_render tl
    simp only [sizeM, renderM, List.length_cons, List.length_append]
    omega

end


/-- The parser reads back exactly what the printer wrote, by strong induction
on a size bound N: part one is parseValue on a rendered tree, part two
parseElems on a non-empty rendered element list, part three parseMembers on
a non-empty rendered member list. Needs pairwise-distinct object keys
(serde_json maps cannot repeat keys), fuel at least the size of the tree,
and a remainder that does not extend a number. -/
theorem parse_render_all (N : Nat) :
    (∀ (v : Json) (fuel : Nat) (rest : List Char), sizeV v ≤ N →
      WFV v = true → sizeV v ≤ fuel → restOk rest = true →
      parseValue fuel (renderV v ++ rest) = some (v, rest)) ∧
    (∀ (x : Json) (xs : List Json) (fuel : Nat) (rest : List Char),
      sizeL (x :: xs) ≤ N → WFL (x :: xs) = true → sizeL (x :: xs) ≤ fuel →
      restOk rest = true →
      parseElems fuel (renderV x ++ (renderL xs ++ (']' :: rest))) =
        some (x :: xs, rest)) ∧
    (∀ (k : String) (v : Json) (ms : List (String × Json)) (fuel : Nat)
      (rest : List Char), sizeM ((k, v) :: ms) ≤ N → WFM ((k, v) :: ms) = true →
      sizeM ((k, v) :: ms) ≤ fuel → restOk rest = true →
      parseMembers fuel
        (renderStr k.data ++ (':' :: (renderV v ++ (renderM ms ++ ('}' :: rest))))) =
        some ((k, v) :: ms, rest)) := by
  induction N with
  | zero =>
    refine ⟨fun v fuel rest hN => absurd hN (by have := sizeV_pos v; omega), ?_, ?_⟩
    · intro x xs fuel rest hN
      exact absurd hN (by simp only [sizeL]; omega)
    · intro k v ms fuel rest hN
      exact absurd hN (by simp only [sizeM]; omega)
  | succ N ih =>
    refine ⟨?_, ?_, ?_⟩
    · intro v fuel rest hN hwf hfuel hrest
      obtain ⟨f, rfl⟩ : ∃ f, fuel = f + 1 := ⟨fuel - 1, by have := sizeV_pos v; omega⟩
      cases v with
      | null => rfl
      | bool b =>
        cases b with
        | true => rfl
        | false => rfl
      | str s =>
        rw [show renderV (Json.str s) ++ rest =
          '"' :: (escList s.data ++ ('"' :: rest)) by
            show ('"' :: (escList s.data ++ ['"'])) ++ rest = _
            simp [List.append_assoc]]
        show (match parseStringBody (escList s.data ++ ('"' :: rest)) with
          | some (s₀, r) => some (Json.str (String.mk s₀), r)
          | none => none) = some (Json.str s, rest)
        rw [parseStringBody_escList]
      | num i =>
        rw [show renderV (Json.num i) = intToChars i from rfl, intToChars]
        by_cases hi : i < 0
        · rw [if_pos hi]
          obtain ⟨hdig, hval, hne⟩ := natToChars_spec i.natAbs
          obtain ⟨c, t, hct⟩ := List.exists_cons_of_ne_nil hne
          have hdc : isDigitChar c = true :=
            hdig c (by rw [hct]; exact List.mem_cons_self c t)
          rw [hct]
          show parseValue (f + 1) ('-' :: ((c :: t) ++ rest)) = _
          rw [show parseValue (f + 1) ('-' :: ((c :: t) ++ rest)) =
            (if isDigitChar c then
              some (Json.num (-(digitsVal (takeDigits ((c :: t) ++ rest)).1 : Int)),
                (takeDigits ((c :: t) ++ rest)).2)
             else none) from rfl]
          rw [if_pos hdc, takeDigits_append (c :: t) rest (by rw [← hct]; exact hdig) hrest]
          rw [show digitsVal (c :: t) = i.natAbs by rw [← hct]; exact hval]
          rw [show (-(i.natAbs : Int)) = i by omega]
        · rw [if_neg hi]
          obtain ⟨hdig, hval, hne⟩ := natToChars_spec i.natAbs
          obtain ⟨c, t, hct⟩ := List.exists_cons_of_ne_nil hne
          have hdc : isDigitChar c = true :=
            hdig c (by rw [hct]; exact List.mem_cons_self c t)
          obtain ⟨hws, hn, ht', hf', hq, hlb, hlc, hm, -⟩ := digit_not_special c hdc
          rw [hct, List.cons_append, parseValue, skipWs_cons_not_ws c _ hws]
          simp only [if_neg hn, if_neg ht', if_neg hf', if_neg hq, if_neg hlb,
            if_neg hlc, if_neg hm, if_pos hdc]
          rw [show (c :: (t ++ rest)) = ((c :: t) ++ rest) from rfl]
          rw [takeDigits_append (c :: t) rest (by rw [← hct]; exact hdig) hrest]
          rw [show digitsVal (c :: t) = i.natAbs by rw [← hct]; exact hval]
          rw [show ((i.natAbs : Int)) = i by omega]
      | arr xs =>
        cases xs with
        | nil => rfl
        | cons x tl =>
          rw [show renderV (Json.arr (x :: tl)) ++ rest =
            '[' :: (renderV x ++ (renderL tl ++ (']' :: rest))) by
              show ('[' :: (renderV x ++ renderL tl ++ [']'])) ++ rest = _
              simp [List.append_assoc]]
          rw [show parseValue (f + 1)
              ('[' :: (renderV x ++ (renderL tl ++ (']' :: rest)))) =
            (match skipWs (renderV x ++ (renderL tl ++ (']' :: rest))) with
             | ']' :: r => some (Json.arr [], r)
             | _ =>
               match parseElems f (renderV x ++ (renderL tl ++ (']' :: rest))) with
               | some (vs, r) => some (Json.arr vs, r)
               | none => none) from rfl]
          obtain ⟨c, t, hct, hcws, hcrb⟩ := renderV_head x
          have hskip : skipWs (renderV x ++ (renderL tl ++ (']' :: rest))) =
              c :: (t ++ (renderL tl ++ (']' :: rest))) := by
            rw [hct, List.cons_append, skipWs_cons_not_ws c _ hcws]
          rw [hskip]
          split
          · next r heq =>
            simp only [List.cons.injEq] at heq
            exact absurd heq.1 hcrb
          · next =>
            rw [ih.2.1 x tl f rest (by simp only [sizeV, sizeL] at hN ⊢; omega) hwf
              (by simp only [sizeV, sizeL] at hfuel ⊢; omega) hrest]
      | obj ms =>
        cases ms with
        | nil => rfl
        | cons kv tl =>
          obtain ⟨k, v⟩ := kv
          rw [show renderV (Json.obj ((k, v) :: tl)) ++ rest =
            '{' :: (renderStr k.data ++
              (':' :: (renderV v ++ (renderM tl ++ ('}' :: rest))))) by
              show ('{' :: (renderStr k.data ++ ':' :: renderV v ++ renderM tl ++
                ['}'])) ++ rest = _
              simp [renderStr, List.append_assoc]]
          rw [show parseValue (f + 1) ('{' :: (renderStr k.data ++
              (':' :: (renderV v ++ (renderM tl ++ ('}' :: rest)))))) =
            (match parseMembers f (renderStr k.data ++
                (':' :: (renderV v ++ (renderM tl ++ ('}' :: rest))))) with
             | some (ms₀, r) => some (Json.obj ms₀, r)
             | none => none) from rfl]
          rw [ih.2.2 k v tl f rest (by simp only [sizeV, sizeM] at hN ⊢; omega) hwf
            (by simp only [sizeV, sizeM] at hfuel ⊢; omega) hrest]
    · intro x xs fuel rest hN hwf hfuel hrest
      obtain ⟨f, rfl⟩ : ∃ f, fuel = f + 1 := ⟨fuel - 1, by simp only [sizeL] at hfuel; omega⟩
      simp only [WFL, Bool.and_eq_true] at hwf
      obtain ⟨hwx, hwxs⟩ := hwf
      rw [parseElems]
      rw [ih.1 x f (renderL xs ++ (']' :: rest))
        (by simp only [sizeL] at hN; omega) hwx
        (by simp only [sizeL] at hfuel; omega) (restOk_renderL_close xs rest)]
      cases xs with
      | nil => rfl
      | cons y ys =>
        rw [show renderL (y :: ys) ++ (']' :: rest) =
          ',' :: (renderV y ++ (renderL ys ++ (']' :: rest))) by
            show (',' :: (renderV y ++ renderL ys)) ++ (']' :: rest) = _
            simp [List.append_assoc]]
        show (match parseElems f (renderV y ++ (renderL ys ++ (']' :: rest))) with
          | some (vs, r₂) => some (x :: vs, r₂)
          | none => none) = some (x :: y :: ys, rest)
        rw [ih.2.1 y ys f rest (by simp only [sizeL] at hN ⊢; omega) hwxs
          (by simp only [sizeL] at hfuel ⊢; omega) hrest]
    · intro k v ms fuel rest hN hwf hfuel hrest
      obtain ⟨f, rfl⟩ : ∃ f, fuel = f + 1 := ⟨fuel - 1, by simp only [sizeM] at hfuel; omega⟩
      simp only [WFM, Bool.and_eq_true] at hwf
      obtain ⟨⟨hka, hwv⟩, hwms⟩ := hwf
      rw [show renderStr k.data ++ (':' :: (renderV v ++ (renderM ms ++ ('}' :: rest)))) =
        '"' :: (escList k.data ++
          ('"' :: (':' :: (renderV v ++ (renderM ms ++ ('}' :: rest)))))) by
          show ('"' :: (escList k.data ++ ['"'])) ++ _ = _
          simp [List.append_assoc]]
      show (match parseStringBody (escList k.data ++
          ('"' :: (':' :: (renderV v ++ (renderM ms ++ ('}' :: rest)))))) with
        | some (k₀, r) =>
          (match skipWs r with
           | ':' :: r₁ =>
             (match parseValue f r₁ with
              | some (v₀, r₂) =>
                (match skipWs r₂ with
                 | ',' :: r₃ =>
                   (match parseMembers f r₃ with
                    | some (ms₀, r₄) => some (insertKV (String.mk k₀) v₀ ms₀, r₄)
                    | none => none)
                 | '}' :: r₃ => some ([(String.mk k₀, v₀)], r₃)
                 | _ => none)
              | none => none)
           | _ => none)
        | none => none) = some ((k, v) :: ms, rest)
      rw [parseStringBody_escList]
      show (match parseValue f (renderV v ++ (renderM ms ++ ('}' :: rest))) with
        | some (v₀, r₂) =>
          (match skipWs r₂ with
           | ',' :: r₃ =>
             (match parseMembers f r₃ with
              | some (ms₀, r₄) => some (insertKV k v₀ ms₀, r₄)
              | none => none)
           | '}' :: r₃ => some ([(k, v₀)], r₃)
           | _ => none)
        | none => none) = some ((k, v) :: ms, rest)
      rw [ih.1 v f _ (by simp only [sizeM] at hN; omega) hwv
        (by simp only [sizeM] at hfuel; omega) (restOk_renderM_close ms rest)]
      cases ms with
      | nil => rfl
      | cons kv₂ tl =>
        obtain ⟨k₂, v₂⟩ := kv₂
        rw [show renderM ((k₂, v₂) :: tl) ++ ('}' :: rest) =
          ',' :: (renderStr k₂.data ++
            (':' :: (renderV v₂ ++ (renderM tl ++ ('}' :: rest))))) by
            show (',' :: (renderStr k₂.data ++ ':' :: renderV v₂ ++ renderM tl)) ++
              ('}' :: rest) = _
            simp [List.append_assoc]]
        show (match parseMembers f (renderStr k₂.data ++
            (':' :: (renderV v₂ ++ (renderM tl ++ ('}' :: rest))))) with
          | some (ms₀, r₄) => some (insertKV k v ms₀, r₄)
          | none => none) = some ((k, v) :: (k₂, v₂) :: tl, rest)
        rw [ih.2.2 k₂ v₂ tl f rest (by simp only [sizeM] at hN ⊢; omega) hwms
          (by simp only [sizeM] at hfuel ⊢; omega) hrest]
        have hka' : (((k₂, v₂) :: tl).any (fun kv => kv.1 = k)) = false := by
          simpa [keyAbsent] using hka
        show some (insertKV k v ((k₂, v₂) :: tl), rest) =
          some ((k, v) :: (k₂, v₂) :: tl, rest)
        rw [show insertKV k v ((k₂, v₂) :: tl) = (k, v) :: (k₂, v₂) :: tl by
          rw [insertKV, if_neg (by rw [hka']; exact Bool.false_ne_true)]]

/-- Cleaning a member list never introduces a key that was absent. -/
theorem keyAbsent_removeNullsM (k : String) (ms : List (String × Json))
    (h : keyAbsent k ms = true) : keyAbsent k (removeNullsM ms) = true := by
  induction ms with
  | nil => rfl
  | cons kv tl ih =>
    obtain ⟨k₂, v₂⟩ := kv
    simp only [keyAbsent, List.any_cons, Bool.not_eq_true', Bool.or_eq_false_iff] at h
    have htl : keyAbsent k tl = true := by
      simp only [keyAbsent, Bool.not_eq_true']
      exact h.2
    have hrec := ih htl
    simp only [keyAbsent, Bool.not_eq_true'] at hrec
    rw [removeNullsM]
    split
    · exact ih htl
    · simp only [keyAbsent, List.any_cons, Bool.not_eq_true', Bool.or_eq_false_iff]
      exact ⟨h.1, hrec⟩

/-- remove_nulls preserves well-formedness: the cleaned tree's objects still
have pairwise-distinct keys (cleaning only drops members). By strong
induction on a size bound as for the parser. -/
theorem WF_remove_nulls_all (N : Nat) :
    (∀ v, sizeV v ≤ N → WFV v = true → WFV (remove_nulls v) = true) ∧
    (∀ ms, sizeM ms ≤ N → WFM ms = true → WFM (removeNullsM ms) = true) ∧
    (∀ xs, sizeL xs ≤ N → WFL xs = true → WFL (removeNullsL xs) = true) := by
  induction N with
  | zero =>
    refine ⟨fun v hN => absurd hN (by have := sizeV_pos v; omega), ?_, ?_⟩
    · intro ms hN
      cases ms with
      | nil => intro h; exact h
      | cons kv tl => exact absurd hN (by simp only [sizeM]; omega)
    · intro xs hN
      cases xs with
      | nil => intro h; exact h
      | cons x tl => exact absurd hN (by simp only [sizeL]; omega)
  | succ N ih =>
    refine ⟨?_, ?_, ?_⟩
    · intro v hN hwf
      cases v with
      | null => exact hwf
      | bool b => exact hwf
      | num i => exact hwf
      | str s => exact hwf
      | arr xs =>
        show WFL (removeNullsL xs) = true
        exact ih.2.2 xs (by simp only [sizeV] at hN; omega) hwf
      | obj ms =>
        show WFM (removeNullsM ms) = true
        exact ih.2.1 ms (by simp only [sizeV] at hN; omega) hwf
    · intro ms hN hwf
      cases ms with
      | nil => exact hwf
      | cons kv tl =>
        obtain ⟨k, v⟩ := kv
        simp only [WFM, Bool.and_eq_true] at hwf
        obtain ⟨⟨hka, hwv⟩, hwtl⟩ := hwf
        rw [removeNullsM]
        split
        · exact ih.2.1 tl (by simp only [sizeM] at hN; omega) hwtl
        · simp only [WFM, Bool.and_eq_true]
          refine ⟨⟨keyAbsent_removeNullsM k tl hka, ?_⟩, ?_⟩
          · exact ih.1 v (by simp only [sizeM] at hN; omega) hwv
          · exact ih.2.1 tl (by simp only [sizeM] at hN; omega) hwtl
    · intro xs hN hwf
      cases xs with
      | nil => exact hwf
      | cons x tl =>
        simp only [WFL, Bool.and_eq_true] at hwf
        obtain ⟨hwx, hwtl⟩ := hwf
        rw [removeNullsL]
        split
        · exact ih.2.2 tl (by simp only [sizeL] at hN; omega) hwtl
        · simp only [WFL, Bool.and_eq_true]
          refine ⟨?_, ?_⟩
          · exact ih.1 x (by simp only [sizeL] at hN; omega) hwx
          · exact ih.2.2 tl (by simp only [sizeL] at hN; omega) hwtl

/-- from_str reads back any well-formed rendered tree: the fuel from_str
passes (input length plus one) is enough by sizeV_le_render. -/
theorem from_str_render (v : Json) (hwf : WFV v = true) :
    from_str (String.mk (renderV v)) = some v := by
  have hsize : sizeV v ≤ (renderV v).length + 1 := by
    have := sizeV_le_render v
    omega
  have h := (parse_render_all (sizeV v)).1 v ((renderV v).length + 1) [] le_rfl hwf hsize rfl
  rw [List.append_nil] at h
  unfold from_str
  rw [show (String.mk (renderV v)).data = renderV v from rfl, h]
  rfl

/-- deserialize_with_type always decodes the subtree selectPayload picks from
the parsed tree; shared by the analyses of the envelope round trip and of
the decoder's unwrap rule. -/
theorem deserialize_with_type_eq {α : Type} (m : HybridObjectMapper)
    (dec : Json → Option α) (s : String) (v : Json) (h : from_str s = some v) :
    m.deserialize_with_type dec s = dec (selectPayload v) := by
  unfold HybridObjectMapper.deserialize_with_type selectPayload
  rw [h]
  cases v with
  | obj ms =>
    cases hT : mfind ms "@type" with
    | none => simp [hT]
    | some w =>
      cases w <;> simp [hT]
      cases hV : mfind ms "value" <;> simp [hV]
  | null => rfl
  | bool b => rfl
  | num i => rfl
  | str s => rfl
  | arr xs => rfl

/-- A tree that is not wrapper-shaped passes through the decoder's unwrap
step unchanged. -/
theorem selectPayload_not_wrapped (v : Json) (h : isWrapperShaped v = false) :
    selectPayload v = v := by
  cases v with
  | obj ms =>
    have h' : (match mfind ms "@type" with
      | some (Json.str _) =>
        (match mfind ms "value" with
         | some _ => true
         | Option.none => false)
      | _ => false) = false := h
    show (match mfind ms "@type" with
      | some (Json.str _) =>
        (match mfind ms "value" with
         | some val => val
         | Option.none => Json.obj ms)
      | _ => Json.obj ms) = Json.obj ms
    cases hT : mfind ms "@type" with
    | none => simp
    | some w =>
      rw [hT] at h'
      cases w <;> simp
      cases hV : mfind ms "value" with
      | none => simp
      | some val =>
        rw [hV] at h'
        simp at h'
  | null => rfl
  | bool b => rfl
  | num i => rfl
  | str s => rfl
  | arr xs => rfl

/-- Decoding a buffer whose body is a rendered well-formed tree gives the
unwrapped tree, for any header byte and any deserializer mapper. -/
theorem deserialize_cons_render (d : KafkaDeserializer) (topic : String) (b : Nat)
    (w : Json) (hwf : WFV w = true) :
    d.deserialize topic (b :: utf8Encode (renderV w)) = .ok (selectPayload w) := by
  show (match utf8Decode (utf8Encode (renderV w)) with
    | Option.none => Except.error SerializationError.invalidUtf8
    | some chars =>
      match d.mapper.deserialize_with_type some (String.mk chars) with
      | some v => Except.ok v
      | Option.none => Except.error SerializationError.json) = _
  rw [utf8Decode_utf8Encode]
  show (match d.mapper.deserialize_with_type some (String.mk (renderV w)) with
    | some v => Except.ok v
    | Option.none => Except.error SerializationError.json) = _
  rw [deserialize_with_type_eq d.mapper some _ w (from_str_render w hwf)]

/-- C1 counterexample: with the default mapper (tagging None, omit-nulls on),
a value that happens to be shaped like an adjacent wrapper is unwrapped by
the decoder, so decode(encode(v)) is its "value" member, not normalize(v). -/
theorem roundtrip_counterexample :
    (KafkaDeserializer.mk HybridObjectMapper.default).deserialize "t"
      ((KafkaSerializer.mk HybridObjectMapper.default).serialize "t" "tn"
        (Json.obj [("@type", Json.str "x"), ("value", Json.num 1)])) =
      .ok (Json.num 1) ∧
    Json.num 1 ≠
      normalizeJson HybridObjectMapper.default
        (Json.obj [("@type", Json.str "x"), ("value", Json.num 1)]) := by
  constructor
  · rfl
  · intro h
    rw [show normalizeJson HybridObjectMapper.default
      (Json.obj [("@type", Json.str "x"), ("value", Json.num 1)]) =
      Json.obj [("@type", Json.str "x"), ("value", Json.num 1)] from rfl] at h
    exact Json.noConfusion h

/-- C1 amended: for every well-formed tree v (no serde_json map repeats a
key), every topic and type name and any decoder-side mapper, deserializing
the serializer's output returns v with null-elision applied according to the
encoder mapper's omit-nulls setting, (a) in Adjacent mode for every v (the
wrapper is transparently removed), and (b) in None mode provided the encoded
tree is not itself shaped like an adjacent wrapper (such a tree is unwrapped
by the decoder, see the counterexample). -/
theorem encode_decode_roundtrip (enc : KafkaSerializer) (dm : HybridObjectMapper)
    (topic₁ topic₂ tn : String) (v : Json) (hwf : WFV v = true) :
    (enc.mapper.type_tagging = TypeTagging.adjacent →
      (KafkaDeserializer.mk dm).deserialize topic₂ (enc.serialize topic₁ tn v) =
        .ok (normalizeJson enc.mapper v)) ∧
    (enc.mapper.type_tagging = TypeTagging.none →
      isWrapperShaped (normalizeJson enc.mapper v) = false →
      (KafkaDeserializer.mk dm).deserialize topic₂ (enc.serialize topic₁ tn v) =
        .ok (normalizeJson enc.mapper v)) := by
  have hp : WFV (enc.mapper.to_json_value v) = true := by
    unfold HybridObjectMapper.to_json_value
    split
    · exact (WF_remove_nulls_all (sizeV v)).1 v le_rfl hwf
    · exact hwf
  constructor
  · intro htag
    rw [show enc.serialize topic₁ tn v =
      MONKY_MAGIC_BYTE :: utf8Encode (renderV (Json.obj
        [("@type", Json.str tn), ("value", enc.mapper.to_json_value v)])) by
        unfold KafkaSerializer.serialize
        rw [htag]
        simp]
    have hwrapped : WFV (Json.obj
        [("@type", Json.str tn), ("value", enc.mapper.to_json_value v)]) = true := by
      show (WFV (enc.mapper.to_json_value v) && true) = true
      rw [hp]
      rfl
    rw [deserialize_cons_render (KafkaDeserializer.mk dm) topic₂ MONKY_MAGIC_BYTE _
      hwrapped]
    rw [show selectPayload (Json.obj
        [("@type", Json.str tn), ("value", enc.mapper.to_json_value v)]) =
      enc.mapper.to_json_value v from rfl]
    rfl
  · intro htag hshape
    cases homit : enc.mapper.omit_null_values with
    | false =>
      rw [show enc.serialize topic₁ tn v = MONKY_MAGIC_BYTE :: utf8Encode (renderV v) by
        unfold KafkaSerializer.serialize
        rw [htag, homit]
        simp]
      rw [deserialize_cons_render (KafkaDeserializer.mk dm) topic₂ MONKY_MAGIC_BYTE v hwf]
      have hshape' : isWrapperShaped v = false := by
        unfold normalizeJson at hshape
        rw [homit] at hshape
        simpa using hshape
      rw [selectPayload_not_wrapped v hshape']
      unfold normalizeJson
      rw [homit]
      simp
    | true =>
      rw [show enc.serialize topic₁ tn v =
        MONKY_MAGIC_BYTE :: utf8Encode (renderV (remove_nulls v)) by
          unfold KafkaSerializer.serialize HybridObjectMapper.to_json_value
          rw [htag, homit]
          simp]
      have hw' : WFV (remove_nulls v) = true :=
        (WF_remove_nulls_all (sizeV v)).1 v le_rfl hwf
      rw [deserialize_cons_render (KafkaDeserializer.mk dm) topic₂ MONKY_MAGIC_BYTE _ hw']
      have hnorm : normalizeJson enc.mapper v = remove_nulls v := by
        unfold normalizeJson
        rw [homit]
        simp
      rw [hnorm] at hshape
      rw [selectPayload_not_wrapped _ hshape, hnorm]

/-- Witness for C1-amended at concrete inputs: an Adjacent-mode encoder and a
None-mode encoder both round-trip an object with a null member to the object
with the null member elided. -/
theorem encode_decode_roundtrip_witness :
    (KafkaDeserializer.mk HybridObjectMapper.default).deserialize "t2"
      ((KafkaSerializer.mk (HybridObjectMapper.mk .adjacent true [])).serialize "t1" "T"
        (Json.obj [("a", Json.num 1), ("b", Json.null)])) =
      .ok (Json.obj [("a", Json.num 1)]) ∧
    (KafkaDeserializer.mk HybridObjectMapper.default).deserialize "t2"
      ((KafkaSerializer.mk HybridObjectMapper.default).serialize "t1" "T"
        (Json.obj [("a", Json.num 1), ("b", Json.null)])) =
      .ok (Json.obj [("a", Json.num 1)]) := by
  constructor
  · have h := (encode_decode_roundtrip
      (KafkaSerializer.mk (HybridObjectMapper.mk .adjacent true []))
      HybridObjectMapper.default "t1" "t2" "T"
      (Json.obj [("a", Json.num 1), ("b", Json.null)]) rfl).1 rfl
    rw [h]
    rfl
  · have h := (encode_decode_roundtrip
      (KafkaSerializer.mk HybridObjectMapper.default)
      HybridObjectMapper.default "t1" "t2" "T"
      (Json.obj [("a", Json.num 1), ("b", Json.null)]) rfl).2 rfl rfl
    rw [h]
    rfl
